import Mathlib

/-!
Verification of the resumable segmented-transcription workflow
(`transcribe.py`, class `SmartTranscriber`) against its specification.

The Python code is shallowly embedded: floating-point durations and
timestamps become exact rationals (`ℚ`), Python strings become `String`
(a list of unicode scalar values, matching Python's code-point view),
`None`-able values become `Option`, and the checkpoint file becomes an
explicit list of written lines / file operations.  Each embedded
definition mirrors one function (or one contiguous block) of the source;
the line numbers of the source are given in the doc comments.
-/

namespace Transcribe

/-! ## Python string primitives

`str.strip()` / `str.split()` with no arguments strip and split on
whitespace.  We model the ASCII whitespace characters that Python
treats as whitespace (space, tab, newline, carriage return, vertical
tab, form feed); the transcripts handled by the program only ever
contain these.
-/

/-- Whitespace predicate used by Python's `str.strip()` / `str.split()`. -/
def pyIsSpace (c : Char) : Bool :=
  c == ' ' || c == '\t' || c == '\n' || c == '\r' ||
  c == Char.ofNat 11 || c == Char.ofNat 12

/-- `str.strip()` on the underlying character list. -/
def pyStripList (l : List Char) : List Char :=
  ((l.dropWhile pyIsSpace).reverse.dropWhile pyIsSpace).reverse

/-- Python `text.strip()`. -/
def pyStrip (s : String) : String := ⟨pyStripList s.data⟩

/-- Accumulator-passing worker for `str.split()` (split on whitespace,
discarding empty words). -/
def pyWordsAux : List Char → List Char → List (List Char)
  | [], acc => if acc = [] then [] else [acc.reverse]
  | c :: cs, acc =>
    if pyIsSpace c then
      if acc = [] then pyWordsAux cs [] else acc.reverse :: pyWordsAux cs []
    else pyWordsAux cs (c :: acc)

/-- Python `text.split()` (no separator: split on whitespace runs). -/
def pySplitWhitespace (s : String) : List String :=
  (pyWordsAux s.data []).map fun l => ⟨l⟩

/-! ## Content filter: `_filter_repetitive_content` (transcribe.py 1024-1051) -/

/-- The fixed filler-token denylist of `_filter_repetitive_content`
(transcribe.py line 1034). -/
def fillerWords : List String := ["好", "A", "啊", "嗯", "哦", "呃", "嗯嗯", "哈哈", "呵"]

/-- `for i in range(len(text)-3): if text[i]==text[i+1]==text[i+2]==text[i+3]`
(transcribe.py 1047-1049): some window of four consecutive equal characters. -/
def hasRun4 : List Char → Bool
  | a :: b :: c :: d :: rest =>
    (a == b && b == c && c == d) || hasRun4 (b :: c :: d :: rest)
  | _ => false

/-- Rule 1 of `_filter_repetitive_content` (transcribe.py 1030-1035):
`len(words) == 1 and len(word) == 1 and word in [...]`. -/
def isFillerWordMatch (words : List String) : Bool :=
  match words with
  | [w] => w.length == 1 && fillerWords.contains w
  | _ => false

/-- Rule 2 of `_filter_repetitive_content` (transcribe.py 1038-1042):
`len(words) >= 2 and all(word == words[0] for word in words[:2])`. -/
def isRepeatFirstTwo (words : List String) : Bool :=
  match words with
  | w0 :: w1 :: _ => w1 == w0
  | _ => false

/-- `_filter_repetitive_content` (transcribe.py 1024-1051).
Returns the input unchanged, or `""` when one of the repetition rules
fires.  `if not text or len(text.strip()) < 3: return text` is the
leading guard; the three rules then run in order on
`words = text.strip().split()`. -/
def _filter_repetitive_content (text : String) : String :=
  if text == "" || (pyStrip text).length < 3 then text
  else
    if isFillerWordMatch (pySplitWhitespace (pyStrip text)) then ""
    else if isRepeatFirstTwo (pySplitWhitespace (pyStrip text)) then ""
    else if text.length > 5 && hasRun4 text.data then ""
    else text

/-! ### Structural facts about stripping and splitting -/

/-- The first element surviving `dropWhile p` does not satisfy `p`. -/
lemma head?_dropWhile_false {α : Type} (p : α → Bool) :
    ∀ (l : List α) (x : α), (l.dropWhile p).head? = some x → p x = false := by
  intro l
  induction l with
  | nil => intro x h; simp [List.dropWhile] at h
  | cons c cs ih =>
    intro x h
    by_cases hc : p c
    · rw [List.dropWhile_cons_of_pos hc] at h
      exact ih x h
    · rw [List.dropWhile_cons_of_neg hc] at h
      simp only [List.head?_cons, Option.some.injEq] at h
      subst h
      exact Bool.not_eq_true _ |>.mp hc

/-- A stripped string does not end in whitespace. -/
lemma pyStripList_getLast?_not_space (l : List Char) (c : Char)
    (h : (pyStripList l).getLast? = some c) : pyIsSpace c = false := by
  unfold pyStripList at h
  rw [List.getLast?_reverse] at h
  exact head?_dropWhile_false pyIsSpace _ c h

/-- A stripped string does not start with whitespace. -/
lemma pyStripList_head?_not_space (l : List Char) (c : Char)
    (h : (pyStripList l).head? = some c) : pyIsSpace c = false := by
  unfold pyStripList at h
  rw [List.head?_reverse] at h
  set m := (l.dropWhile pyIsSpace).reverse with hm
  have hne : m.dropWhile pyIsSpace ≠ [] := by
    intro hnil
    rw [hnil] at h
    simp at h
  obtain ⟨t, ht⟩ := List.dropWhile_suffix (l := m) pyIsSpace
  have h2 : m.getLast? = some c := by
    calc m.getLast? = (t ++ m.dropWhile pyIsSpace).getLast? := by rw [ht]
    _ = (m.dropWhile pyIsSpace).getLast? := List.getLast?_append_of_ne_nil t hne
    _ = some c := h
  rw [hm, List.getLast?_reverse] at h2
  exact head?_dropWhile_false pyIsSpace _ c h2

/-- With a nonempty accumulator, `pyWordsAux` never produces zero words. -/
lemma pyWordsAux_ne_nil (l : List Char) :
    ∀ acc : List Char, acc ≠ [] → pyWordsAux l acc ≠ [] := by
  induction l with
  | nil => intro acc hacc; simp [pyWordsAux, hacc]
  | cons c cs ih =>
    intro acc hacc
    unfold pyWordsAux
    by_cases hc : pyIsSpace c
    · simp only [hc, if_true, hacc, if_neg hacc]
      exact List.cons_ne_nil _ _
    · simp only [hc, Bool.false_eq_true, if_false]
      exact ih (c :: acc) (List.cons_ne_nil c acc)

/-- If splitting yields no words, every character was whitespace. -/
lemma pyWordsAux_eq_nil (l : List Char) (h : pyWordsAux l [] = []) :
    ∀ c ∈ l, pyIsSpace c = true := by
  induction l with
  | nil => intro c hc; cases hc
  | cons c cs ih =>
    unfold pyWordsAux at h
    by_cases hc : pyIsSpace c
    · simp only [hc, if_true, if_pos rfl] at h
      intro x hx
      cases hx with
      | head => exact hc
      | tail _ hx => exact ih h x hx
    · simp only [hc, Bool.false_eq_true, if_false] at h
      exact absurd h (pyWordsAux_ne_nil cs [c] (List.cons_ne_nil c []))

/-- If `pyWordsAux` run with a nonempty accumulator yields a single word,
that word is the accumulated content plus the remaining input, up to a
whitespace-only tail. -/
lemma pyWordsAux_single (l : List Char) :
    ∀ (acc w : List Char), acc ≠ [] → pyWordsAux l acc = [w] →
      ∃ sp, (∀ c ∈ sp, pyIsSpace c = true) ∧ acc.reverse ++ l = w ++ sp := by
  induction l with
  | nil =>
    intro acc w hacc h
    unfold pyWordsAux at h
    rw [if_neg hacc] at h
    simp only [List.cons.injEq, and_true] at h
    exact ⟨[], by simp, by simp [h]⟩
  | cons c cs ih =>
    intro acc w hacc h
    unfold pyWordsAux at h
    by_cases hc : pyIsSpace c
    · simp only [hc, if_true, if_neg hacc, List.cons.injEq] at h
      obtain ⟨hw, hrest⟩ := h
      refine ⟨c :: cs, ?_, by simp [hw]⟩
      intro x hx
      cases hx with
      | head => exact hc
      | tail _ hx => exact pyWordsAux_eq_nil cs hrest x hx
    · simp only [hc, Bool.false_eq_true, if_false] at h
      obtain ⟨sp, hsp, heq⟩ := ih (c :: acc) w (List.cons_ne_nil c acc) h
      refine ⟨sp, hsp, ?_⟩
      simpa using heq

/-- Rule-1 dead code: if splitting a stripped string yields exactly one
word, that word IS the whole stripped string (Python:
`text.strip().split() == [w]` forces `w == text.strip()`). -/
lemma pyWordsAux_single_strip (l : List Char) (w : List Char)
    (h : pyWordsAux (pyStripList l) [] = [w]) : w = pyStripList l := by
  rcases hs : pyStripList l with _ | ⟨c, cs⟩
  · rw [hs] at h
    simp [pyWordsAux] at h
  · rw [hs] at h
    have hc : pyIsSpace c = false := by
      apply pyStripList_head?_not_space l
      rw [hs]; rfl
    unfold pyWordsAux at h
    rw [hc] at h
    simp only [Bool.false_eq_true, if_false] at h
    obtain ⟨sp, hsp, heq⟩ := pyWordsAux_single cs [c] w (List.cons_ne_nil c []) h
    simp only [List.reverse_cons, List.reverse_nil, List.nil_append,
      List.singleton_append] at heq
    rcases hsp' : sp with _ | ⟨d, ds⟩
    · rw [hsp'] at heq
      simpa using heq.symm
    · exfalso
      have hlast : (pyStripList l).getLast? = sp.getLast? := by
        rw [hs, heq, List.getLast?_append_of_ne_nil w (by rw [hsp']; exact List.cons_ne_nil d ds)]
      obtain ⟨e, he⟩ : ∃ e, sp.getLast? = some e := by
        rw [hsp']
        exact ⟨(d :: ds).getLast (List.cons_ne_nil d ds), List.getLast?_eq_getLast _ _⟩
      have hespace : pyIsSpace e = true := hsp e (List.mem_of_mem_getLast? he)
      have : pyIsSpace e = false := by
        apply pyStripList_getLast?_not_space l
        rw [hlast, he]
      rw [this] at hespace
      exact Bool.false_ne_true hespace

/-- `hasRun4` finds a window of four equal consecutive characters iff one
exists. -/
lemma hasRun4_cons_of_true (a : Char) (m : List Char) (h : hasRun4 m = true) :
    hasRun4 (a :: m) = true := by
  rcases m with _ | ⟨b, _ | ⟨c, _ | ⟨d, rest⟩⟩⟩ <;> simp [hasRun4] at h ⊢
  · exact Or.inr h

lemma hasRun4_iff (l : List Char) :
    hasRun4 l = true ↔ ∃ p c s, l = p ++ c :: c :: c :: c :: s := by
  constructor
  · intro h
    induction l with
    | nil => simp [hasRun4] at h
    | cons a t ih =>
      rcases t with _ | ⟨b, _ | ⟨c, _ | ⟨d, rest⟩⟩⟩ <;> simp [hasRun4] at h
      rcases h with ⟨⟨rfl, rfl⟩, rfl⟩ | h
      · exact ⟨[], a, rest, rfl⟩
      · obtain ⟨p, e, s, hps⟩ := ih h
        exact ⟨a :: p, e, s, by rw [List.cons_append, hps]⟩
  · rintro ⟨p, c, s, rfl⟩
    induction p with
    | nil => simp [hasRun4]
    | cons a p ih => exact hasRun4_cons_of_true a _ ih

/-! ### The content filter's contract -/

/-- If a stripped string splits into a single word, that word is the
stripped string itself. -/
lemma single_word_is_strip (t : String) (w : String)
    (h : pySplitWhitespace (pyStrip t) = [w]) : w = pyStrip t := by
  unfold pySplitWhitespace at h
  rcases hw : pyWordsAux (pyStrip t).data [] with _ | ⟨x, xs⟩
  · rw [hw] at h
    simp at h
  · rw [hw] at h
    simp only [List.map_cons, List.cons.injEq] at h
    obtain ⟨hx, hxs⟩ := h
    have hxs' : xs = [] := by simpa using hxs
    subst hxs'
    have hx2 : x = pyStripList t.data :=
      pyWordsAux_single_strip t.data x (by exact hw)
    rw [← hx, hx2]
    rfl

/-- The filter either passes the text through unchanged or rejects it
entirely: no third outcome. -/
lemma filter_eq_self_or_empty (t : String) :
    _filter_repetitive_content t = t ∨ _filter_repetitive_content t = "" := by
  unfold _filter_repetitive_content
  split_ifs <;> simp

/-- Inputs whose stripped length is below the minimum are passed
through unchanged. -/
lemma filter_of_short (t : String) (hlen : (pyStrip t).length < 3) :
    _filter_repetitive_content t = t := by
  unfold _filter_repetitive_content
  rw [if_pos]
  simp [hlen]

/-- C10: for every string input `t`, the content filter returns either
the empty string or `t` itself exactly; consequently it is idempotent;
and every input whose stripped length is below 3 is returned
unchanged. -/
theorem c10_filter_identity_or_empty (t : String) :
    (_filter_repetitive_content t = t ∨ _filter_repetitive_content t = "") ∧
    _filter_repetitive_content (_filter_repetitive_content t) = _filter_repetitive_content t ∧
    ((pyStrip t).length < 3 → _filter_repetitive_content t = t) := by
  refine ⟨filter_eq_self_or_empty t, ?_, fun h => filter_of_short t h⟩
  rcases filter_eq_self_or_empty t with h | h
  · rw [h]
    exact h
  · rw [h]
    rfl

/-- Witness for C10 at the concrete input `"ab"`. -/
theorem c10_filter_witness :
    (pyStrip "ab").length < 3 ∧ _filter_repetitive_content "ab" = "ab" :=
  ⟨by decide, (c10_filter_identity_or_empty "ab").2.2 (by decide)⟩

/-- C5 counterexample: `"好"` is in the fixed filler denylist and is a
single-word input, yet the filter returns it unchanged instead of `""`
(its stripped length 1 trips the `< 3` early return, so the single-word
filler rule can never fire). -/
theorem c5_filter_counterexample :
    "好" ∈ fillerWords ∧ pySplitWhitespace (pyStrip "好") = ["好"] ∧
    _filter_repetitive_content "好" = "好" ∧ ("好" : String) ≠ "" := by
  refine ⟨by decide, by decide, by decide, by decide⟩

/-- C5 (amended): inputs with stripped length < 3 — among them every
token of the filler denylist, making the single-word filler rule
unreachable — are returned unchanged; for inputs with stripped length
≥ 3, the filter returns `""` exactly when the first two words are
identical or the text is longer than 5 characters and contains a run of
four identical consecutive characters, and returns the input unchanged
otherwise. -/
theorem c5_filter_denylist_contract (t : String) :
    ((pyStrip t).length < 3 → _filter_repetitive_content t = t) ∧
    (3 ≤ (pyStrip t).length →
      (((∃ w ws, pySplitWhitespace (pyStrip t) = w :: w :: ws) ∨
        (5 < t.length ∧ ∃ p c s, t.data = p ++ c :: c :: c :: c :: s)) →
          _filter_repetitive_content t = "") ∧
      (¬((∃ w ws, pySplitWhitespace (pyStrip t) = w :: w :: ws) ∨
         (5 < t.length ∧ ∃ p c s, t.data = p ++ c :: c :: c :: c :: s)) →
          _filter_repetitive_content t = t)) ∧
    (∀ w ∈ fillerWords, _filter_repetitive_content w = w) := by
  refine ⟨fun h => filter_of_short t h, ?_, by decide⟩
  intro hlen3
  have ht : ¬(t == "" || decide ((pyStrip t).length < 3)) = true := by
    intro hc
    rcases Bool.or_eq_true_iff.mp hc with h | h
    · have : t = "" := by simpa [beq_iff_eq] using h
      subst this
      simp [pyStrip, pyStripList] at hlen3
    · exact absurd (of_decide_eq_true h) (Nat.not_lt.mpr hlen3)
  constructor
  · rintro (⟨w, ws, hw⟩ | ⟨h5, hrun⟩)
    · unfold _filter_repetitive_content
      rw [if_neg ht]
      by_cases h1 : isFillerWordMatch (pySplitWhitespace (pyStrip t)) = true
      · simp [h1]
      · have h2 : isRepeatFirstTwo (pySplitWhitespace (pyStrip t)) = true := by
          rw [hw]
          simp [isRepeatFirstTwo]
        simp [h1, h2]
    · unfold _filter_repetitive_content
      rw [if_neg ht]
      have hr : hasRun4 t.data = true := (hasRun4_iff t.data).mpr hrun
      by_cases h1 : isFillerWordMatch (pySplitWhitespace (pyStrip t)) = true
      · simp [h1]
      · by_cases h2 : isRepeatFirstTwo (pySplitWhitespace (pyStrip t)) = true
        · simp [h1, h2]
        · simp [h1, h2, hr, h5]
  · intro hno
    push_neg at hno
    obtain ⟨hno2, hno3⟩ := hno
    unfold _filter_repetitive_content
    rw [if_neg ht]
    have h1 : isFillerWordMatch (pySplitWhitespace (pyStrip t)) = false := by
      unfold isFillerWordMatch
      rcases hws : pySplitWhitespace (pyStrip t) with _ | ⟨w, _ | ⟨w1, rest⟩⟩
      · rfl
      · have hw : w = pyStrip t := single_word_is_strip t w hws
        have : w.length = (pyStrip t).length := by rw [hw]
        simp only [Bool.and_eq_false_iff]
        left
        simp [this]
        omega
      · rfl
    have h2 : isRepeatFirstTwo (pySplitWhitespace (pyStrip t)) = false := by
      unfold isRepeatFirstTwo
      rcases hws : pySplitWhitespace (pyStrip t) with _ | ⟨w, _ | ⟨w1, rest⟩⟩
      · rfl
      · rfl
      · have : w1 ≠ w := by
          intro hww
          subst hww
          exact absurd hws (hno2 w1 rest)
        simp [this]
    have h3 : (decide (t.length > 5) && hasRun4 t.data) = false := by
      by_cases h5 : 5 < t.length
      · have : hasRun4 t.data = false := by
          rcases hr : hasRun4 t.data with _ | _
          · rfl
          · obtain ⟨p, c, s, hpcs⟩ := (hasRun4_iff t.data).mp hr
            exact absurd hpcs (hno3 h5 p c s)
        simp [this]
      · simp [h5]
    rw [h1, h2]
    simp only [Bool.false_eq_true, if_false]
    rw [h3]
    simp

/-- Witness for C5's amended contract: the repeated-first-word rule
rejects `"ab ab"`, and `"abc"` (no rule matches) passes unchanged. -/
theorem c5_filter_witness :
    _filter_repetitive_content "ab ab" = "" ∧ _filter_repetitive_content "abc" = "abc" := by
  constructor
  · exact ((c5_filter_denylist_contract "ab ab").2.1 (by decide)).1
      (Or.inl ⟨"ab", [], by decide⟩)
  · refine ((c5_filter_denylist_contract "abc").2.1 (by decide)).2 ?_
    rintro (⟨w, ws, hw⟩ | ⟨h5, _⟩)
    · rw [show pySplitWhitespace (pyStrip "abc") = ["abc"] from by decide] at hw
      simp at hw
    · revert h5
      decide

/-! ## Data model

A transcription backend returns a dict `{"text": ..., "chunks": [...]}`;
each chunk is `{"text": ..., "timestamp": [start, end]}` where the
timestamp entry may be absent and either bound may be `None`
(`Option (Option ℚ × Option ℚ)`).
-/

/-- One timed span of a transcription result
(`{"text": ..., "timestamp": [a, b]}`). -/
structure Chunk where
  text : String
  timestamp : Option (Option ℚ × Option ℚ)
deriving DecidableEq

/-- A transcription result (`{"text": ..., "chunks": [...]}`). -/
structure TranscriptionResult where
  text : String
  chunks : List Chunk
deriving DecidableEq

/-! ## Resume completeness check (transcribe.py 843-881)

`resume_transcription` parses the last `[a s - b s]` line of the
existing checkpoint into `last_timestamp` (`None` when no line parses)
and decides completeness with
`if last_timestamp and last_timestamp >= (total_duration - 30)`.
Note that this is Python truthiness: `last_timestamp` equal to `0.0` is
falsy, exactly like `None`.
-/

/-- The completeness decision of `resume_transcription`
(transcribe.py 870-881): `True` means the checkpoint is accepted as
complete and re-transcription is skipped. -/
def resume_is_complete (last_timestamp : Option ℚ) (total_duration : ℚ) : Bool :=
  match last_timestamp with
  | none => false
  | some t => !(t == 0) && decide (total_duration - 30 ≤ t)

/-- C3 counterexample: a parsed last end time of `0.0` seconds with a
30-second total satisfies `lastEndSec ≥ totalDurationSec − 30`, yet the
code returns `False` because `0.0` is falsy in Python
(`if last_timestamp and ...`). -/
theorem c3_counterexample :
    resume_is_complete (some 0) 30 = false ∧ (30 : ℚ) - 30 ≤ 0 := by
  constructor
  · rfl
  · norm_num

/-- C3 (amended): the completeness check returns `true` iff a last end
time was parsed, it is nonzero, and it is at least
`totalDurationSec − 30`.  The boundary `lastEndSec = total − 30` yields
`true` whenever that value is nonzero (`total ≠ 30`), and
`lastEndSec = total − 30 − 1/100` always yields `false`. -/
theorem c3_resume_completeness (t total : ℚ) :
    (resume_is_complete (some t) total = true ↔ (t ≠ 0 ∧ total - 30 ≤ t)) ∧
    resume_is_complete none total = false ∧
    (total ≠ 30 → resume_is_complete (some (total - 30)) total = true) ∧
    resume_is_complete (some (total - 30 - 1/100)) total = false := by
  refine ⟨?_, rfl, ?_, ?_⟩
  · unfold resume_is_complete
    simp [beq_iff_eq]
  · intro h30
    unfold resume_is_complete
    simp only [Bool.and_eq_true, Bool.not_eq_true', beq_eq_false_iff_ne, decide_eq_true_eq]
    exact ⟨by intro h; apply h30; linarith, le_refl _⟩
  · unfold resume_is_complete
    simp only [Bool.and_eq_false_iff]
    right
    simp only [decide_eq_false_iff_not, not_le]
    linarith

/-- Witness for C3's amended statement at `t = 100`, `total = 120`. -/
theorem c3_resume_witness :
    resume_is_complete (some 100) 120 = true ∧
    resume_is_complete (some 90) 120 = true := by
  constructor
  · exact (c3_resume_completeness 100 120).1.mpr ⟨by norm_num, by norm_num⟩
  · have h := (c3_resume_completeness 100 120).2.2.1 (by norm_num)
    norm_num at h
    exact h

/-! ## Transcription with fallback (transcribe.py 529-573)

`transcribe_with_fallback` runs the primary backend, strips the result
text, and when the text equals `'!'`, equals `'!!!!!!!!!'`, or has
length ≤ 2, replaces the result by the backup backend's output —
but only when the configured model is `"Breeze-ASR-25"` (otherwise the
degenerate result is kept).  The backup backend run (either
faster-whisper `large-v2` or the standard `whisper-base` pipeline,
depending on what loads) is abstracted as the oracle `backup`. -/
def transcribe_with_fallback (model_name : String)
    (primary backup : TranscriptionResult) : TranscriptionResult :=
  if pyStrip primary.text == "!" || pyStrip primary.text == "!!!!!!!!!" ||
      (pyStrip primary.text).length ≤ 2 then
    if model_name == "Breeze-ASR-25" then backup else primary
  else primary

/-- C7 counterexample: a primary result of nine exclamation marks has
trimmed length 9 — not empty, not a lone punctuation mark, not length
≤ 2 — yet the code still runs the fallback backend and replaces the
result (the explicit `text == '!!!!!!!!!'` disjunct). -/
theorem c7_counterexample :
    transcribe_with_fallback "Breeze-ASR-25" ⟨"!!!!!!!!!", []⟩ ⟨"hello world", []⟩
        = ⟨"hello world", []⟩ ∧
    2 < (pyStrip ("!!!!!!!!!" : String)).length ∧
    transcribe_with_fallback "Breeze-ASR-25" ⟨"!!!!!!!!!", []⟩ ⟨"hello world", []⟩
        ≠ ⟨"!!!!!!!!!", []⟩ := by
  refine ⟨by decide, by decide, by decide⟩

/-- C7 (amended): with the `"Breeze-ASR-25"` primary model the
operation returns the fallback backend's result exactly when the
primary's trimmed text has length ≤ 2 or is the nine-character string
`"!!!!!!!!!"`, and otherwise keeps the primary result; the single
fallback's result is kept even if itself degenerate, and the operation
always returns a result (degenerate output is never an error).  With
any other primary model the primary result is always kept. -/
theorem c7_fallback_policy (p b : TranscriptionResult) :
    transcribe_with_fallback "Breeze-ASR-25" p b =
      (if (pyStrip p.text).length ≤ 2 ∨ pyStrip p.text = "!!!!!!!!!" then b else p) ∧
    (∀ name : String, name ≠ "Breeze-ASR-25" → transcribe_with_fallback name p b = p) := by
  constructor
  · unfold transcribe_with_fallback
    by_cases h : (pyStrip p.text).length ≤ 2 ∨ pyStrip p.text = "!!!!!!!!!"
    · rw [if_pos h]
      have hc : (pyStrip p.text == "!" || pyStrip p.text == "!!!!!!!!!" ||
          decide ((pyStrip p.text).length ≤ 2)) = true := by
        rcases h with h | h
        · simp [h]
        · simp [h]
      rw [if_pos hc,
        if_pos (show (("Breeze-ASR-25" : String) == "Breeze-ASR-25") = true by decide)]
    · rw [if_neg h]
      push_neg at h
      obtain ⟨h2, h9⟩ := h
      have h1 : pyStrip p.text ≠ "!" := by
        intro hx
        rw [hx] at h2
        exact absurd h2 (by decide)
      have hc : (pyStrip p.text == "!" || pyStrip p.text == "!!!!!!!!!" ||
          decide ((pyStrip p.text).length ≤ 2)) = false := by
        simp only [Bool.or_eq_false_iff, beq_eq_false_iff_ne, ne_eq,
          decide_eq_false_iff_not, not_le]
        exact ⟨⟨h1, h9⟩, h2⟩
      rw [hc]
      simp
  · intro name hname
    unfold transcribe_with_fallback
    by_cases hd : (pyStrip p.text == "!" || pyStrip p.text == "!!!!!!!!!" ||
        decide ((pyStrip p.text).length ≤ 2)) = true
    · rw [if_pos hd, if_neg]
      intro hn
      exact hname (by simpa [beq_iff_eq] using hn)
    · rw [if_neg hd]

/-- Witness for C7 at concrete degenerate (`"!"`) and healthy
(`"hello"`) primary texts and a non-Breeze model name. -/
theorem c7_fallback_witness :
    transcribe_with_fallback "Breeze-ASR-25" ⟨"!", []⟩ ⟨"ok then", []⟩ = ⟨"ok then", []⟩ ∧
    transcribe_with_fallback "Breeze-ASR-25" ⟨"hello", []⟩ ⟨"ok then", []⟩ = ⟨"hello", []⟩ ∧
    transcribe_with_fallback "whisper-base" ⟨"!", []⟩ ⟨"ok then", []⟩ = ⟨"!", []⟩ := by
  refine ⟨?_, ?_, ?_⟩
  · rw [(c7_fallback_policy ⟨"!", []⟩ ⟨"ok then", []⟩).1]
    rw [if_pos]
    left
    decide
  · rw [(c7_fallback_policy ⟨"hello", []⟩ ⟨"ok then", []⟩).1]
    rw [if_neg]
    rintro (h | h)
    · revert h; decide
    · revert h; decide
  · exact (c7_fallback_policy ⟨"!", []⟩ ⟨"ok then", []⟩).2 "whisper-base" (by decide)

/-! ## Combining results: `combine_results` (transcribe.py 996-1010) -/

/-- `combine_results`: extend the chunk list of each result that has
chunks, append each nonempty text plus a single-space separator, and
strip the accumulated text at the end. -/
def combine_results (results : List TranscriptionResult) : TranscriptionResult :=
  let combined_chunks := results.foldl
    (fun acc r => if r.chunks.isEmpty then acc else acc ++ r.chunks) []
  let combined_text := results.foldl
    (fun acc r => if r.text == "" then acc else acc ++ r.text ++ " ") ""
  { text := pyStrip combined_text, chunks := combined_chunks }

/-- The chunk accumulator is a plain concatenation. -/
lemma combine_chunks_foldl (results : List TranscriptionResult) :
    ∀ acc : List Chunk,
      results.foldl (fun acc r => if r.chunks.isEmpty then acc else acc ++ r.chunks) acc
        = acc ++ (results.map Transcribe.TranscriptionResult.chunks).flatten := by
  induction results with
  | nil => intro acc; simp
  | cons r rs ih =>
    intro acc
    simp only [List.foldl_cons, List.map_cons, List.flatten_cons]
    by_cases h : r.chunks.isEmpty
    · rw [if_pos h, ih acc, List.isEmpty_iff.mp h]
      simp
    · rw [if_neg h, ih (acc ++ r.chunks), List.append_assoc]

/-- C8 counterexample: combining `{text:"A ", segments:[s1]}` and
`{text:"B ", segments:[s2]}` yields text `"A  B"` — each input keeps
its own trailing space and the joining separator adds another, and only
the outer ends are stripped — not the single-spaced `"A B"` the claim
states.  (Chunk order is preserved as claimed.) -/
theorem c8_counterexample :
    combine_results
        [⟨"A ", [⟨"A", some (some 0, some 1)⟩]⟩, ⟨"B ", [⟨"B", some (some 1, some 2)⟩]⟩]
      = ⟨"A  B", [⟨"A", some (some 0, some 1)⟩, ⟨"B", some (some 1, some 2)⟩]⟩ ∧
    ("A  B" : String) ≠ "A B" := by
  refine ⟨by decide, by decide⟩

/-- C8 (amended): combining concatenates the chunk lists in order, and
concatenates each nonempty text with a trailing single-space separator,
stripping only the ends of the final string; inner runs of whitespace
(such as the double space arising from a text that already ends in a
space) are preserved. -/
theorem c8_combine_results (results : List TranscriptionResult) (s1 s2 : Chunk)
    (t1 t2 : String) :
    (combine_results results).chunks
        = (results.map Transcribe.TranscriptionResult.chunks).flatten ∧
    (combine_results results).text
        = pyStrip (results.foldl
            (fun acc r => if r.text == "" then acc else acc ++ r.text ++ " ") "") ∧
    combine_results [⟨t1, [s1]⟩, ⟨t2, [s2]⟩]
        = ⟨pyStrip ((if t1 == "" then "" else t1 ++ " ") ++
              (if t2 == "" then "" else t2 ++ " ")), [s1, s2]⟩ := by
  refine ⟨?_, rfl, ?_⟩
  · unfold combine_results
    exact combine_chunks_foldl results []
  · unfold combine_results
    by_cases h1 : t1 = "" <;> by_cases h2 : t2 = "" <;>
      simp [h1, h2, String.append_assoc]

/-- Witness for C8 at `{text:"A ", [s1]}`, `{text:"B ", [s2]}`. -/
theorem c8_combine_witness :
    combine_results
        [⟨"A ", [⟨"A", none⟩]⟩, ⟨"B ", [⟨"B", none⟩]⟩]
      = ⟨"A  B", [⟨"A", none⟩, ⟨"B", none⟩]⟩ := by
  have h := (c8_combine_results [] ⟨"A", none⟩ ⟨"B", none⟩ "A " "B ").2.2
  rw [h]
  decide

/-! ## Timestamp globalization (transcribe.py 956-967)

Inside the segment loop each chunk's slice-local timestamp is shifted
by the slice's global start offset; a chunk whose timestamp pair has a
`None` end is given the slice's own bounds
`[start_time, start_time + (end_time - start_time)]`; a chunk carrying
no timestamp at all is left untouched. -/
def adjust_chunk (start_time end_time : ℚ) (c : Chunk) : Chunk :=
  match c.timestamp with
  | some (some a, some b) =>
    { c with timestamp := some (some (a + start_time), some (b + start_time)) }
  | some _ =>
    { c with timestamp := some (some start_time, some (start_time + (end_time - start_time))) }
  | none => c

/-- The per-result timestamp adjustment
(`if "chunks" in segment_result and segment_result["chunks"]:`). -/
def adjust_result (start_time end_time : ℚ) (r : TranscriptionResult) : TranscriptionResult :=
  if r.chunks.isEmpty then r
  else { r with chunks := r.chunks.map (adjust_chunk start_time end_time) }

/-- C4: a chunk with both local timestamps `[a, b]` is shifted to
`[a+S, b+S]`; a chunk whose timestamp pair has a missing (`None`) end
is given the slice bounds `[S, E]`; the text is never altered, and the
adjustment is total — no missing timestamp can crash it. -/
theorem c4_timestamp_globalization (S E a b : ℚ) (t : String) :
    adjust_chunk S E ⟨t, some (some a, some b)⟩ = ⟨t, some (some (a + S), some (b + S))⟩ ∧
    (∀ x y : Option ℚ, x = none ∨ y = none →
      adjust_chunk S E ⟨t, some (x, y)⟩ = ⟨t, some (some S, some E)⟩) ∧
    (∀ c : Chunk, (adjust_chunk S E c).text = c.text) := by
  refine ⟨rfl, ?_, ?_⟩
  · rintro x y (rfl | rfl)
    · unfold adjust_chunk
      simp only [Chunk.mk.injEq, true_and]
      rcases y with _ | yv
      · simp only [Option.some.injEq, Prod.mk.injEq, true_and]
        ring
      · simp only [Option.some.injEq, Prod.mk.injEq, true_and]
        ring
    · rcases x with _ | xv
      · unfold adjust_chunk
        simp only [Chunk.mk.injEq, true_and, Option.some.injEq, Prod.mk.injEq]
        ring
      · unfold adjust_chunk
        simp only [Chunk.mk.injEq, true_and, Option.some.injEq, Prod.mk.injEq]
        ring
  · intro c
    unfold adjust_chunk
    rcases c with ⟨ct, _ | ⟨_ | av, _ | bv⟩⟩ <;> rfl

/-- Witness for C4 at `S = 60`, `E = 120`, local span `[3, 7]` and a
`[None, None]` span. -/
theorem c4_timestamp_witness :
    adjust_chunk 60 120 ⟨"hi", some (some 3, some 7)⟩ = ⟨"hi", some (some 63, some 67)⟩ ∧
    adjust_chunk 60 120 ⟨"hi", some (none, none)⟩ = ⟨"hi", some (some 60, some 120)⟩ := by
  constructor
  · have h := (c4_timestamp_globalization 60 120 3 7 "hi").1
    norm_num at h
    exact h
  · exact (c4_timestamp_globalization 60 120 0 0 "hi").2.1 none none (Or.inl rfl)

/-! ## Segment arithmetic (transcribe.py 901-924)

`transcribe_audio_segments_realtime` computes
`num_segments = int(total_duration / segment_duration) + 1` and for each
`i in range(num_segments)` the slice
`start_time = i * segment_duration`,
`end_time = min((i + 1) * segment_duration, total_duration)`.
-/

/-- Python `int()` applied to a (nonnegative or negative) rational:
truncation toward zero. -/
def pyInt (q : ℚ) : ℤ := Int.tdiv q.num q.den

/-- `num_segments = int(total_duration / segment_duration) + 1`
(transcribe.py 911). -/
def num_segments (total_duration segment_duration : ℚ) : ℤ :=
  pyInt (total_duration / segment_duration) + 1

/-- `start_time = i * segment_duration` (transcribe.py 923). -/
def seg_start (segment_duration : ℚ) (i : ℕ) : ℚ := i * segment_duration

/-- `end_time = min((i + 1) * segment_duration, total_duration)`
(transcribe.py 924). -/
def seg_end (total_duration segment_duration : ℚ) (i : ℕ) : ℚ :=
  min ((i + 1) * segment_duration) total_duration

/-- On nonnegative rationals Python truncation agrees with the floor. -/
lemma pyInt_eq_floor (q : ℚ) (h : 0 ≤ q) : pyInt q = ⌊q⌋ := by
  unfold pyInt
  rw [Rat.floor_def]
  exact Int.tdiv_eq_ediv (Rat.num_nonneg.mpr h) (by positivity)

/-- C1 counterexample: with `totalDurationSec = 120` and
`segmentDurationSec = 60` the loop makes
`int(120/60) + 1 = 3` segment attempts, not
`ceil(120/60) = 2` as claimed; the third attempt is the empty range
`[120, 120)`. -/
theorem c1_counterexample :
    num_segments 120 60 = 3 ∧ ⌈(120 : ℚ) / 60⌉ = 2 ∧
    seg_start 60 2 = 120 ∧ seg_end 120 60 2 = 120 := by
  refine ⟨?_, ?_, ?_, ?_⟩
  · unfold num_segments pyInt
    norm_num
  · norm_num
  · unfold seg_start
    norm_num
  · unfold seg_end
    norm_num

/-- C1 (amended): for nonnegative total duration and positive segment
duration the loop performs `⌊total/seg⌋ + 1` segment attempts — which
equals `⌈total/seg⌉` exactly when the segment duration does not divide
the total (otherwise there is one extra attempt with an empty range) —
and segment `i` covers `[i·seg, min((i+1)·seg, total))`; these ranges
lie inside `[0, total)` and every point of `[0, total)` is covered by
exactly one attempted range. -/
theorem c1_segmentation (total seg : ℚ) (h0 : 0 ≤ total) (hs : 0 < seg) :
    num_segments total seg = ⌊total / seg⌋ + 1 ∧
    (num_segments total seg = ⌈total / seg⌉ ↔ ¬∃ k : ℤ, total = k * seg) ∧
    (∀ i : ℕ, 0 ≤ seg_start seg i ∧ seg_end total seg i ≤ total) ∧
    (∀ x : ℚ, 0 ≤ x → x < total →
      ∃! i : ℕ, (i : ℤ) < num_segments total seg ∧
        seg_start seg i ≤ x ∧ x < seg_end total seg i) := by
  have hq0 : 0 ≤ total / seg := div_nonneg h0 hs.le
  have hN : num_segments total seg = ⌊total / seg⌋ + 1 := by
    unfold num_segments
    rw [pyInt_eq_floor _ hq0]
  refine ⟨hN, ?_, ?_, ?_⟩
  · constructor
    · intro hceil ⟨k, hk⟩
      have hqk : total / seg = (k : ℚ) := by
        rw [hk]
        field_simp
      rw [hN, hqk] at hceil
      simp only [Int.floor_intCast, Int.ceil_intCast] at hceil
      omega
    · intro hnd
      rw [hN]
      symm
      rw [Int.ceil_eq_iff]
      constructor
      · push_cast
        have hle : (⌊total / seg⌋ : ℚ) ≤ total / seg := Int.floor_le _
        rcases lt_or_eq_of_le hle with hlt | heq
        · linarith
        · exfalso
          apply hnd
          refine ⟨⌊total / seg⌋, ?_⟩
          have := heq
          field_simp at this
          linarith [this]
      · push_cast
        linarith [Int.lt_floor_add_one (total / seg)]
  · intro i
    constructor
    · unfold seg_start
      positivity
    · unfold seg_end
      exact min_le_right _ _
  · intro x hx0 hxt
    have hxq : 0 ≤ x / seg := div_nonneg hx0 hs.le
    have hfl0 : 0 ≤ ⌊x / seg⌋ := Int.floor_nonneg.mpr hxq
    refine ⟨⌊x / seg⌋.toNat, ⟨?_, ?_, ?_⟩, ?_⟩
    · rw [hN]
      have hmono : ⌊x / seg⌋ ≤ ⌊total / seg⌋ :=
        Int.floor_le_floor ((div_le_div_iff_of_pos_right hs).mpr hxt.le)
      rw [Int.toNat_of_nonneg hfl0]
      omega
    · unfold seg_start
      have h1 : (⌊x / seg⌋ : ℚ) ≤ x / seg := Int.floor_le _
      have h2 : ((⌊x / seg⌋.toNat : ℕ) : ℚ) = ((⌊x / seg⌋ : ℤ) : ℚ) := by
        rw [← Int.cast_natCast, Int.toNat_of_nonneg hfl0]
      rw [h2]
      calc (⌊x / seg⌋ : ℚ) * seg ≤ (x / seg) * seg := by
            exact mul_le_mul_of_nonneg_right h1 hs.le
      _ = x := by field_simp
    · unfold seg_end
      rw [lt_min_iff]
      refine ⟨?_, hxt⟩
      have h1 : x / seg < ⌊x / seg⌋ + 1 := Int.lt_floor_add_one _
      have h2 : ((⌊x / seg⌋.toNat : ℕ) : ℚ) = ((⌊x / seg⌋ : ℤ) : ℚ) := by
        rw [← Int.cast_natCast, Int.toNat_of_nonneg hfl0]
      rw [h2]
      have := (div_lt_iff₀ hs).mp h1
      linarith
    · rintro j ⟨_, hj1, hj2⟩
      unfold seg_start at hj1
      unfold seg_end at hj2
      have hj2' : x < (j + 1) * seg := lt_of_lt_of_le hj2 (min_le_left _ _)
      have hfloor : ⌊x / seg⌋ = (j : ℤ) := by
        rw [Int.floor_eq_iff]
        constructor
        · push_cast
          rw [le_div_iff₀ hs]
          exact_mod_cast hj1
        · push_cast
          rw [div_lt_iff₀ hs]
          exact_mod_cast hj2'
      omega

/-- Witness for C1 at `total = 130`, `seg = 60`: three attempts,
equal to the ceiling since 60 does not divide 130. -/
theorem c1_segmentation_witness :
    num_segments 130 60 = ⌊(130 : ℚ) / 60⌋ + 1 ∧
    (num_segments 130 60 = ⌈(130 : ℚ) / 60⌉ ↔ ¬∃ k : ℤ, (130 : ℚ) = k * 60) := by
  have h := c1_segmentation 130 60 (by norm_num) (by norm_num)
  exact ⟨h.1, h.2.1⟩

/-! ## The checkpoint file as a state of written lines

File writes are modelled as an explicit operation list: opening a file
in `"w"` mode truncates it, `f.write(...)` appends one line, and
`f.flush()` is recorded as its own operation.  The file content is the
list of lines obtained by applying the operations in order.
-/

/-- One line of the checkpoint file. -/
inductive FileLine
  | header (sizeMB durationMin : ℚ)
  | span (startSec endSec : ℚ) (text : String)
  | unknownTs (text : String)
  | plain (text : String)
deriving DecidableEq

/-- A primitive file operation. -/
inductive FileOp
  | truncate
  | writeLine (l : FileLine)
  | flush
deriving DecidableEq

/-- Effect of one file operation on the file content. -/
def applyOp (st : List FileLine) : FileOp → List FileLine
  | .truncate => []
  | .writeLine l => st ++ [l]
  | .flush => st

/-- Effect of an operation sequence on the file content. -/
def applyOps (st : List FileLine) (ops : List FileOp) : List FileLine :=
  ops.foldl applyOp st

/-- The lines written by an operation sequence. -/
def writesOf (ops : List FileOp) : List FileLine :=
  ops.filterMap fun op =>
    match op with
    | .writeLine l => some l
    | _ => none

/-- Every written line is flushed before the next operation (or the end
of the sequence). -/
def writesFlushed : List FileOp → Bool
  | [] => true
  | .writeLine _ :: rest =>
    match rest with
    | .flush :: _ => writesFlushed rest
    | _ => false
  | .truncate :: rest => writesFlushed rest
  | .flush :: rest => writesFlushed rest

/-- Number of header blocks present in the file content. -/
def countHeaders (st : List FileLine) : ℕ :=
  (st.filter fun l =>
    match l with
    | .header _ _ => true
    | _ => false).length

/-! ## Realtime saving: `save_result_realtime` (transcribe.py 1053-1105)

The result file is opened in append (`"a"`) mode; for each chunk with a
present timestamp entry the filtered text is written as a
`[a s - b s]`/`[時間戳未知]` line followed by `f.flush()`; chunks whose
filtered text is empty or whitespace-only are skipped, as are chunks
with no timestamp entry; a result without chunks has its (filtered)
full text written as a plain line.
-/

/-- The file operations emitted for one chunk
(transcribe.py 1060-1087). -/
def chunk_ops (c : Chunk) : List FileOp :=
  match c.timestamp with
  | some (st, en) =>
    if _filter_repetitive_content c.text == "" then []
    else if pyStrip (_filter_repetitive_content c.text) == "" then []
    else
      match st, en with
      | some a, some b =>
        [.writeLine (.span a b (_filter_repetitive_content c.text)), .flush]
      | _, _ =>
        [.writeLine (.unknownTs (_filter_repetitive_content c.text)), .flush]
  | none => []

/-- The file operations emitted by one `save_result_realtime` call
(transcribe.py 1053-1105). -/
def save_ops (r : TranscriptionResult) : List FileOp :=
  if !r.chunks.isEmpty then
    (r.chunks.map chunk_ops).flatten
  else if r.text != "" then
    if !(pyStrip (_filter_repetitive_content r.text) == "") then
      [.writeLine (.plain (_filter_repetitive_content r.text)), .flush]
    else []
  else []

/-- `save_result_realtime` as a transition on the file content. -/
def save_result_realtime (r : TranscriptionResult) (st : List FileLine) : List FileLine :=
  applyOps st (save_ops r)

/-- The file operations emitted by `create_segmented_transcription`
(transcribe.py 787-824): when resuming, the existing file is returned
untouched; otherwise the new file is created (`"w"` mode truncate) and
the header block — carrying the size/duration fingerprint — is written
once. -/
def create_ops (resuming : Bool) (sizeMB durationMin : ℚ) : List FileOp :=
  if resuming then [] else [.truncate, .writeLine (.header sizeMB durationMin)]

/-! ### C9: the checkpoint body is append-only -/

/-- A truncate-free operation sequence appends exactly its writes. -/
lemma applyOps_eq_append (ops : List FileOp)
    (h : ∀ op ∈ ops, op ≠ FileOp.truncate) :
    ∀ st : List FileLine, applyOps st ops = st ++ writesOf ops := by
  induction ops with
  | nil => intro st; simp [applyOps, writesOf]
  | cons op rest ih =>
    intro st
    have hop := h op (List.mem_cons_self op rest)
    have hrest : ∀ op ∈ rest, op ≠ FileOp.truncate :=
      fun o ho => h o (List.mem_cons_of_mem op ho)
    cases op with
    | truncate => exact absurd rfl hop
    | writeLine l =>
      simp only [applyOps, List.foldl_cons, applyOp, writesOf, List.filterMap_cons]
      rw [← applyOps, ← writesOf, ih hrest (st ++ [l])]
      simp
    | flush =>
      simp only [applyOps, List.foldl_cons, applyOp, writesOf, List.filterMap_cons]
      rw [← applyOps, ← writesOf, ih hrest st]

/-- Each chunk emits either nothing or one flushed write of a
non-header line. -/
lemma chunk_ops_shape (c : Chunk) :
    chunk_ops c = [] ∨ ∃ l, chunk_ops c = [FileOp.writeLine l, FileOp.flush] ∧
      countHeaders [l] = 0 := by
  unfold chunk_ops
  rcases c with ⟨t, _ | ⟨_ | a, _ | b⟩⟩
  · exact Or.inl rfl
  · split_ifs <;> first | exact Or.inl rfl | exact Or.inr ⟨_, rfl, rfl⟩
  · split_ifs <;> first | exact Or.inl rfl | exact Or.inr ⟨_, rfl, rfl⟩
  · split_ifs <;> first | exact Or.inl rfl | exact Or.inr ⟨_, rfl, rfl⟩
  · split_ifs <;> first | exact Or.inl rfl | exact Or.inr ⟨_, rfl, rfl⟩

/-- `save_ops` is a concatenation of `[]`/`[write, flush]` blocks
whose written lines are never headers. -/
lemma save_ops_blocks (r : TranscriptionResult) :
    ∃ blocks : List (List FileOp),
      save_ops r = blocks.flatten ∧
      ∀ b ∈ blocks, b = [] ∨ ∃ l, b = [FileOp.writeLine l, FileOp.flush] ∧
        countHeaders [l] = 0 := by
  unfold save_ops
  by_cases hc : !r.chunks.isEmpty
  · rw [if_pos hc]
    exact ⟨r.chunks.map chunk_ops, rfl, by
      intro b hb
      obtain ⟨c, _, rfl⟩ := List.mem_map.mp hb
      exact chunk_ops_shape c⟩
  · rw [if_neg hc]
    split_ifs with h1 h2
    · refine ⟨[[FileOp.writeLine (.plain (_filter_repetitive_content r.text)), FileOp.flush]],
        by simp, ?_⟩
      intro b hb
      simp only [List.mem_singleton] at hb
      exact Or.inr ⟨_, hb, rfl⟩
    · exact ⟨[], by simp, by simp⟩
    · exact ⟨[], by simp, by simp⟩

/-- A concatenation of `[]`/`[write, flush]` blocks flushes every
write. -/
lemma writesFlushed_flatten (blocks : List (List FileOp))
    (h : ∀ b ∈ blocks, b = [] ∨ ∃ l, b = [FileOp.writeLine l, FileOp.flush] ∧
      countHeaders [l] = 0) :
    writesFlushed blocks.flatten = true := by
  induction blocks with
  | nil => rfl
  | cons b bs ih =>
    have hb := h b (List.mem_cons_self b bs)
    have hbs : ∀ x ∈ bs, x = [] ∨ ∃ l, x = [FileOp.writeLine l, FileOp.flush] ∧
        countHeaders [l] = 0 :=
      fun x hx => h x (List.mem_cons_of_mem b hx)
    rcases hb with rfl | ⟨l, rfl, _⟩
    · simpa using ih hbs
    · simpa [writesFlushed] using ih hbs

/-- No save operation ever truncates the file. -/
lemma save_ops_no_truncate (r : TranscriptionResult) :
    ∀ op ∈ save_ops r, op ≠ FileOp.truncate := by
  obtain ⟨blocks, hb, hshape⟩ := save_ops_blocks r
  rw [hb]
  intro op hop
  obtain ⟨b, hbmem, hopb⟩ := List.mem_flatten.mp hop
  rcases hshape b hbmem with rfl | ⟨l, rfl, _⟩
  · cases hopb
  · rcases hopb with _ | ⟨_, hopb2⟩
    · simp
    · rcases hopb2 with _ | ⟨_, h⟩
      · simp
      · cases h

/-- No save operation ever writes a header line. -/
lemma save_ops_no_header (r : TranscriptionResult) :
    ∀ l ∈ writesOf (save_ops r), countHeaders [l] = 0 := by
  intro l hl
  unfold writesOf at hl
  obtain ⟨op, hop, hmatch⟩ := List.mem_filterMap.mp hl
  obtain ⟨blocks, hb, hshape⟩ := save_ops_blocks r
  rw [hb] at hop
  obtain ⟨b, hbmem, hopb⟩ := List.mem_flatten.mp hop
  rcases hshape b hbmem with rfl | ⟨l', rfl, hl'⟩
  · cases hopb
  · have hline : l = l' := by
      rcases hopb with _ | ⟨_, hopb2⟩
      · simpa using hmatch.symm
      · rcases hopb2 with _ | ⟨_, h⟩
        · exact Option.noConfusion hmatch
        · cases h
    rw [hline]
    exact hl'

lemma countHeaders_append (a b : List FileLine) :
    countHeaders (a ++ b) = countHeaders a + countHeaders b := by
  unfold countHeaders
  rw [List.filter_append, List.length_append]

lemma countHeaders_eq_zero (L : List FileLine)
    (h : ∀ l ∈ L, countHeaders [l] = 0) : countHeaders L = 0 := by
  induction L with
  | nil => rfl
  | cons l ls ih =>
    have : l :: ls = [l] ++ ls := rfl
    rw [this, countHeaders_append, h l (by simp), ih (fun x hx => h x (by simp [hx]))]

/-- The lines written over a whole run of saves contain no header. -/
lemma run_writes_no_header (saves : List TranscriptionResult) :
    countHeaders (writesOf (saves.map save_ops).flatten) = 0 := by
  apply countHeaders_eq_zero
  intro l hl
  unfold writesOf at hl
  obtain ⟨op, hop, hmatch⟩ := List.mem_filterMap.mp hl
  obtain ⟨ops, hops, hopmem⟩ := List.mem_flatten.mp hop
  obtain ⟨r, _, rfl⟩ := List.mem_map.mp hops
  apply save_ops_no_header r
  unfold writesOf
  exact List.mem_filterMap.mpr ⟨op, hopmem, hmatch⟩

/-- A whole run of saves never truncates. -/
lemma run_ops_no_truncate (saves : List TranscriptionResult) :
    ∀ op ∈ (saves.map save_ops).flatten, op ≠ FileOp.truncate := by
  intro op hop
  obtain ⟨ops, hops, hopmem⟩ := List.mem_flatten.mp hop
  obtain ⟨r, _, rfl⟩ := List.mem_map.mp hops
  exact save_ops_no_truncate r op hopmem

/-- C9: modelling the checkpoint file as a line-list state, a save
appends exactly its written lines (the prior content is a prefix of the
new content and nothing is rewritten in place), every written line is
flushed before the save returns, a save never truncates, resuming
writes no header, and over a fresh run — creation followed by any
sequence of saves — the header block occurs exactly once in the file. -/
theorem c9_checkpoint_append_only (r : TranscriptionResult) (st : List FileLine)
    (saves : List TranscriptionResult) (sizeMB durationMin : ℚ) :
    save_result_realtime r st = st ++ writesOf (save_ops r) ∧
    st <+: save_result_realtime r st ∧
    writesFlushed (save_ops r) = true ∧
    (∀ op ∈ save_ops r, op ≠ FileOp.truncate) ∧
    create_ops true sizeMB durationMin = [] ∧
    countHeaders (applyOps [] (create_ops false sizeMB durationMin ++
      (saves.map save_ops).flatten)) = 1 := by
  have happ : save_result_realtime r st = st ++ writesOf (save_ops r) :=
    applyOps_eq_append (save_ops r) (save_ops_no_truncate r) st
  refine ⟨happ, ⟨writesOf (save_ops r), happ.symm⟩, ?_, save_ops_no_truncate r, rfl, ?_⟩
  · obtain ⟨blocks, hb, hshape⟩ := save_ops_blocks r
    rw [hb]
    exact writesFlushed_flatten blocks hshape
  · unfold applyOps
    rw [List.foldl_append]
    have h1 : List.foldl applyOp []
        (create_ops false sizeMB durationMin) = [FileLine.header sizeMB durationMin] := rfl
    rw [h1]
    rw [← applyOps,
      applyOps_eq_append _ (run_ops_no_truncate saves) [FileLine.header sizeMB durationMin]]
    have : [FileLine.header sizeMB durationMin] =
        [FileLine.header sizeMB durationMin] ++ [] := by simp
    rw [countHeaders_append, run_writes_no_header saves]
    rfl

/-- Witness for C9 at a one-chunk result and one save. -/
theorem c9_checkpoint_witness :
    save_result_realtime ⟨"hello world", [⟨"hello world", some (some 1, some 2)⟩]⟩ []
      = [FileLine.span 1 2 "hello world"] ∧
    countHeaders (applyOps [] (create_ops false 12 34 ++
      ([⟨"hello world", [⟨"hello world", some (some 1, some 2)⟩]⟩].map save_ops).flatten))
      = 1 := by
  have h := c9_checkpoint_append_only
    ⟨"hello world", [⟨"hello world", some (some 1, some 2)⟩]⟩ []
    [⟨"hello world", [⟨"hello world", some (some 1, some 2)⟩]⟩] 12 34
  refine ⟨?_, h.2.2.2.2.2⟩
  rw [h.1]
  decide

/-! ## The segmentation loop (transcribe.py 901-994)

`transcribe_audio_segments_realtime` iterates
`for i in range(num_segments)`: it extracts the slice with `ffmpeg`
(`returncode != 0` ⇒ print and `continue`), transcribes it with
fallback, shifts the slice-local timestamps by `start_time`, saves the
result to the checkpoint file, and accumulates it in `all_results`;
any exception inside the loop body is caught (`except ... continue`).
The external extraction and transcription outcomes per segment index
are abstracted as an environment: `extractOk i = false` models a
nonzero `ffmpeg` exit, `transcribeRes i = none` models an exception
raised while processing segment `i`. -/
structure SegmentEnv where
  extractOk : ℕ → Bool
  transcribeRes : ℕ → Option TranscriptionResult

/-- The body of one loop iteration (transcribe.py 922-990): a failed
extraction or an exception leaves both the file and the accumulated
results untouched and control continues with the next index. -/
def process_segment (env : SegmentEnv) (total seg : ℚ) (i : ℕ)
    (st : List FileLine × List TranscriptionResult) :
    List FileLine × List TranscriptionResult :=
  if env.extractOk i = false then st
  else
    match env.transcribeRes i with
    | none => st
    | some r =>
      let adjusted := adjust_result (seg_start seg i) (seg_end total seg i) r
      (save_result_realtime adjusted st.1, st.2 ++ [adjusted])

/-- `transcribe_audio_segments_realtime` (transcribe.py 901-994):
run the loop over `range(num_segments)` starting from the given file
content, then combine the accumulated per-segment results. -/
def transcribe_audio_segments_realtime (env : SegmentEnv) (total seg : ℚ)
    (st0 : List FileLine) : List FileLine × TranscriptionResult :=
  let final := (List.range (num_segments total seg).toNat).foldl
    (fun st i => process_segment env total seg i st) (st0, [])
  (final.1, combine_results final.2)

/-- The checkpoint lines contributed by segment `i`. -/
def segment_lines (env : SegmentEnv) (total seg : ℚ) (i : ℕ) : List FileLine :=
  if env.extractOk i = false then []
  else
    match env.transcribeRes i with
    | none => []
    | some r => writesOf (save_ops (adjust_result (seg_start seg i) (seg_end total seg i) r))

/-- The accumulated result contributed by segment `i`. -/
def segment_result (env : SegmentEnv) (total seg : ℚ) (i : ℕ) :
    Option TranscriptionResult :=
  if env.extractOk i = false then none
  else (env.transcribeRes i).map (adjust_result (seg_start seg i) (seg_end total seg i))

/-- One loop iteration appends the segment's lines and result. -/
lemma process_segment_eq (env : SegmentEnv) (total seg : ℚ) (i : ℕ)
    (st : List FileLine × List TranscriptionResult) :
    process_segment env total seg i st
      = (st.1 ++ segment_lines env total seg i,
         st.2 ++ (segment_result env total seg i).toList) := by
  unfold process_segment segment_lines segment_result
  by_cases hx : env.extractOk i = false
  · rw [if_pos hx, if_pos hx, if_pos hx]
    simp
  · rw [if_neg hx, if_neg hx, if_neg hx]
    rcases ht : env.transcribeRes i with _ | r
    · simp
    · simp [save_result_realtime,
        applyOps_eq_append (save_ops (adjust_result (seg_start seg i) (seg_end total seg i) r))
          (save_ops_no_truncate _)]

/-- The loop fold decomposes segment-by-segment. -/
lemma segments_foldl (env : SegmentEnv) (total seg : ℚ) (l : List ℕ) :
    ∀ (st0 : List FileLine) (acc : List TranscriptionResult),
      l.foldl (fun st i => process_segment env total seg i st) (st0, acc)
        = (st0 ++ (l.map (segment_lines env total seg)).flatten,
           acc ++ l.filterMap (segment_result env total seg)) := by
  induction l with
  | nil => intro st0 acc; simp
  | cons i rest ih =>
    intro st0 acc
    rw [List.foldl_cons, process_segment_eq, ih]
    rcases h : segment_result env total seg i with _ | r <;>
      simp [h, List.filterMap_cons]

/-- Environment for the C6 end-to-end scenario: a 130-second source
with 60-second segments; segment 2's extraction fails (nonzero `ffmpeg`
exit), segments 1 and 3 transcribe successfully. -/
def c6Env : SegmentEnv where
  extractOk i := !(i == 1)
  transcribeRes i :=
    if i == 0 then some ⟨"Hello world", [⟨"Hello world", some (some 1, some 50)⟩]⟩
    else if i == 2 then some ⟨"Good bye", [⟨"Good bye", some (some 2, some 9)⟩]⟩
    else none

/-- C6: a per-segment failure (failed extraction, or an exception while
processing the segment, modelled as `transcribeRes = none`) contributes
nothing to the checkpoint and the loop continues with the remaining
indices — the final file is always the initial content followed by the
per-segment contributions in index order.  Concrete scenario: a
130-second source with 60-second segments yields 3 attempts
`[0,60) [60,120) [120,130)`; with segment 2's extraction failing, the
checkpoint receives exactly the spans of segments 1 and 3 and the run
completes. -/
theorem c6_segment_failure_skips (env : SegmentEnv) (total seg : ℚ)
    (st0 : List FileLine) :
    ((transcribe_audio_segments_realtime env total seg st0).1
      = st0 ++ ((List.range (num_segments total seg).toNat).map
          (segment_lines env total seg)).flatten) ∧
    (∀ i, env.extractOk i = false →
      segment_lines env total seg i = [] ∧ segment_result env total seg i = none) ∧
    num_segments 130 60 = 3 ∧
    (seg_start 60 0 = 0 ∧ seg_end 130 60 0 = 60) ∧
    (seg_start 60 1 = 60 ∧ seg_end 130 60 1 = 120) ∧
    (seg_start 60 2 = 120 ∧ seg_end 130 60 2 = 130) ∧
    (transcribe_audio_segments_realtime c6Env 130 60 []).1
      = [FileLine.span 1 50 "Hello world", FileLine.span 122 129 "Good bye"] := by
  have hN : num_segments 130 60 = 3 := by
    have hfl : ⌊(130 : ℚ) / 60⌋ = 2 := by
      rw [Int.floor_eq_iff]
      norm_num
    unfold num_segments
    rw [pyInt_eq_floor _ (by norm_num), hfl]
    rfl
  refine ⟨?_, ?_, hN, ?_, ?_, ?_, ?_⟩
  · unfold transcribe_audio_segments_realtime
    rw [segments_foldl]
  · intro i hx
    unfold segment_lines segment_result
    rw [if_pos hx, if_pos hx]
    exact ⟨rfl, rfl⟩
  · constructor
    · norm_num [seg_start]
    · norm_num [seg_end, min_def]
  · constructor
    · norm_num [seg_start]
    · norm_num [seg_end, min_def]
  · constructor
    · norm_num [seg_start]
    · norm_num [seg_end, min_def]
  · have hgen : (transcribe_audio_segments_realtime c6Env 130 60 []).1
        = [] ++ ((List.range (num_segments 130 60).toNat).map
            (segment_lines c6Env 130 60)).flatten := by
      unfold transcribe_audio_segments_realtime
      rw [segments_foldl]
    have hn3 : (num_segments 130 60).toNat = 3 := by
      rw [hN]
      rfl
    rw [hgen, hn3, show List.range 3 = [0, 1, 2] from rfl]
    have h0 : segment_lines c6Env 130 60 0
        = [FileLine.span (1 + seg_start 60 0) (50 + seg_start 60 0) "Hello world"] := rfl
    have h1 : segment_lines c6Env 130 60 1 = [] := rfl
    have h2 : segment_lines c6Env 130 60 2
        = [FileLine.span (2 + seg_start 60 2) (9 + seg_start 60 2) "Good bye"] := rfl
    rw [show (0 : ℕ) = 0 from rfl]
    simp only [List.map_cons, List.map_nil, List.flatten_cons, List.flatten_nil,
      h0, h1, h2, List.nil_append, List.append_nil]
    have e1 : (1 : ℚ) + seg_start 60 0 = 1 := by norm_num [seg_start]
    have e2 : (50 : ℚ) + seg_start 60 0 = 50 := by norm_num [seg_start]
    have e3 : (2 : ℚ) + seg_start 60 2 = 122 := by norm_num [seg_start]
    have e4 : (9 : ℚ) + seg_start 60 2 = 129 := by
      norm_num [seg_start]
    rw [e1, e2, e3, e4]
    rfl

/-- Witness for C6: segment index 1 (the failing segment 2) contributes
no lines. -/
theorem c6_segment_failure_witness :
    c6Env.extractOk 1 = false ∧ segment_lines c6Env 130 60 1 = [] := by
  refine ⟨by decide, ?_⟩
  exact ((c6_segment_failure_skips c6Env 130 60 []).2.1 1 (by decide)).1

/-! ## Locating an existing checkpoint:
`check_existing_transcription` (transcribe.py 649-758)

The function lists files named `result-*.txt`, sorts them by the
timestamp embedded in the file name — newest first, with
`datetime.min` as the key of any name that fails to parse — and
returns the first whose content contains both fingerprint lines
(`"檔案大小: {size:.1f} MB"` and `"音訊長度: {duration:.1f} 分鐘"` of
the processed audio).  String helpers are implemented structurally on
the character list; `datetime` values are encoded as the natural
number `((((y·100+month)·100+day)·100+hour)·100+minute)·100+second`,
which orders exactly like the datetime it encodes.
-/

/-- Python `str.split(sep)` for a one-character separator (worker). -/
def splitOnCharAux (sep : Char) : List Char → List Char → List (List Char)
  | [], acc => [acc.reverse]
  | c :: cs, acc =>
    if c == sep then acc.reverse :: splitOnCharAux sep cs []
    else splitOnCharAux sep cs (c :: acc)

/-- Python `filename.split('-')`. -/
def pySplitOnChar (sep : Char) (s : String) : List String :=
  (splitOnCharAux sep s.data []).map fun l => ⟨l⟩

/-- Python `s.replace('.txt', '')`: drop every (non-overlapping,
left-to-right) occurrence of `".txt"`. -/
def removeDotTxt : List Char → List Char
  | '.' :: 't' :: 'x' :: 't' :: rest => removeDotTxt rest
  | c :: rest => c :: removeDotTxt rest
  | [] => []

/-- `listStartsWith l p`: `p` is an initial segment of `l`. -/
def listStartsWith : List Char → List Char → Bool
  | _, [] => true
  | [], _ :: _ => false
  | c :: cs, p :: ps => c == p && listStartsWith cs ps

/-- Python `s.startswith(pre)`. -/
def strStartsWith (s pre : String) : Bool := listStartsWith s.data pre.data

/-- Python `s.endswith(suf)`. -/
def strEndsWith (s suf : String) : Bool :=
  listStartsWith s.data.reverse suf.data.reverse

/-- Python `pat in content` (worker). -/
def containsSubAux (pat : List Char) : List Char → Bool
  | [] => pat.isEmpty
  | c :: cs => listStartsWith (c :: cs) pat || containsSubAux pat cs

/-- Python `pat in content`. -/
def containsSub (content pat : String) : Bool := containsSubAux pat.data content.data

/-- Numeric value of a decimal digit character. -/
def digitVal (c : Char) : ℕ := c.toNat - 48

/-- Gregorian leap year (as validated by `datetime`). -/
def isLeapYear (y : ℕ) : Bool := (y % 4 == 0 && y % 100 != 0) || y % 400 == 0

/-- Days in a month (as validated by `datetime`). -/
def daysInMonth (y mo : ℕ) : ℕ :=
  if mo == 2 then (if isLeapYear y then 29 else 28)
  else if mo == 4 || mo == 6 || mo == 9 || mo == 11 then 30
  else 31

/-- Order-preserving encoding of a datetime as a natural number. -/
def encodeDT (y mo d h mi s : ℕ) : ℕ :=
  ((((y * 100 + mo) * 100 + d) * 100 + h) * 100 + mi) * 100 + s

/-- `datetime.min` = 0001-01-01 00:00:00, the sort key of unparsable
names. -/
def datetimeMin : ℕ := encodeDT 1 1 1 0 0 0

/-- `datetime.strptime(ts, '%Y%m%d_%H%M%S')` on the canonical
fixed-width form the program itself generates
(`datetime.now().strftime('%Y%m%d_%H%M%S')`, transcribe.py 795):
four year digits, two digits for each further field, an underscore
separator, and `datetime`'s range validation (year ≥ 1, month 1–12,
day 1–days-in-month, hour ≤ 23, minute/second ≤ 59).  Any other form
fails to parse, modelling the raised `ValueError`. -/
def parseTimestamp (s : String) : Option ℕ :=
  match s.data with
  | [y1, y2, y3, y4, m1, m2, d1, d2, u, h1, h2, n1, n2, s1, s2] =>
    if u == '_' &&
        [y1, y2, y3, y4, m1, m2, d1, d2, h1, h2, n1, n2, s1, s2].all Char.isDigit then
      let y := ((digitVal y1 * 10 + digitVal y2) * 10 + digitVal y3) * 10 + digitVal y4
      let mo := digitVal m1 * 10 + digitVal m2
      let d := digitVal d1 * 10 + digitVal d2
      let h := digitVal h1 * 10 + digitVal h2
      let mi := digitVal n1 * 10 + digitVal n2
      let sec := digitVal s1 * 10 + digitVal s2
      if 1 ≤ y && 1 ≤ mo && mo ≤ 12 && 1 ≤ d && d ≤ daysInMonth y mo &&
          h ≤ 23 && mi ≤ 59 && sec ≤ 59 then
        some (encodeDT y mo d h mi sec)
      else none
    else none
  | _ => none

/-- The timestamp-extraction attempt of `extract_timestamp`
(transcribe.py 682-692): split the name on `'-'`; with at least three
parts, strip `'.txt'` from the last part and parse it; `none` models
both the too-few-parts early return and the parse exception. -/
def extract_timestamp_opt (filename : String) : Option ℕ :=
  let parts := pySplitOnChar '-' filename
  if parts.length ≥ 3 then
    match parts.getLast? with
    | some last => parseTimestamp ⟨removeDotTxt last.data⟩
    | none => none
  else none

/-- `extract_timestamp` (transcribe.py 682-692): unparsable names get
`datetime.min`. -/
def extract_timestamp (filename : String) : ℕ :=
  (extract_timestamp_opt filename).getD datetimeMin

/-- A candidate checkpoint file: its directory-listing name and its
content. -/
structure ResultFile where
  name : String
  content : String
deriving DecidableEq

/-- The sort relation of `result_files.sort(key=extract_timestamp,
reverse=True)`: `a` may come no later than `b` when `b`'s key does not
exceed `a`'s.  With a stable insertion sort this reproduces Python's
stable descending sort. -/
def newerEq (a b : ResultFile) : Prop :=
  extract_timestamp b.name ≤ extract_timestamp a.name

instance : DecidableRel newerEq := fun _ _ => Nat.decLe _ _

instance : IsTotal ResultFile newerEq :=
  ⟨fun a b => Nat.le_total (extract_timestamp b.name) (extract_timestamp a.name)⟩

instance : IsTrans ResultFile newerEq :=
  ⟨fun _ _ _ hab hbc => le_trans hbc hab⟩

/-- `if file.startswith("result-") and file.endswith(".txt")`
(transcribe.py 677-679). -/
def is_result_file (f : ResultFile) : Bool :=
  strStartsWith f.name "result-" && strEndsWith f.name ".txt"

/-- `f"{x:.1f}"` for a nonnegative rational: round to one decimal
place and render. -/
def fmt1 (q : ℚ) : String :=
  let n := (round (10 * q)).toNat
  (toString (n / 10)) ++ "." ++ (toString (n % 10))

/-- The size fingerprint line (transcribe.py 703). -/
def size_line (sizeMB : ℚ) : String := "檔案大小: " ++ fmt1 sizeMB ++ " MB"

/-- The duration fingerprint line (transcribe.py 704). -/
def duration_line (durationMin : ℚ) : String :=
  "音訊長度: " ++ fmt1 durationMin ++ " 分鐘"

/-- `size_match and duration_match` (transcribe.py 702-706). -/
def fingerprint_match (psize pdur : ℚ) (f : ResultFile) : Bool :=
  containsSub f.content (size_line psize) && containsSub f.content (duration_line pdur)

/-- The filtered and sorted candidate list (transcribe.py 676-694). -/
def sortedCandidates (listing : List ResultFile) : List ResultFile :=
  List.insertionSort newerEq (listing.filter is_result_file)

/-- `check_existing_transcription` (transcribe.py 649-758), restricted
to its file-selection result: the first sorted candidate whose content
contains both fingerprint lines of the processed audio, or `none`. -/
def check_existing_transcription (listing : List ResultFile) (psize pdur : ℚ) :
    Option ResultFile :=
  (sortedCandidates listing).find? (fingerprint_match psize pdur)

/-- A name that fails timestamp parsing. -/
def ceFail : ResultFile := ⟨"result-source-notatimestamp.txt", "x"⟩

/-- A name that parses successfully — to `datetime.min` itself
(0001-01-01 00:00:00). -/
def ceMin : ResultFile := ⟨"result-source-00010101_000000.txt", "x"⟩

/-- C2 counterexample: `"result-source-00010101_000000.txt"` parses
successfully to `datetime.min`, giving it the same sort key as the
unparsable `"result-source-notatimestamp.txt"`; the sort is stable, so
with the unparsable file first in the listing it stays *before* the
successfully parsed file — a file whose name fails timestamp parsing
is not always sorted last. -/
theorem c2_counterexample :
    extract_timestamp_opt ceFail.name = none ∧
    extract_timestamp_opt ceMin.name = some datetimeMin ∧
    List.insertionSort newerEq [ceFail, ceMin] = [ceFail, ceMin] := by
  refine ⟨by decide, by decide, by decide⟩

/-- Every successfully parsed timestamp is at least `datetime.min`. -/
lemma parseTimestamp_ge_min (s : String) (v : ℕ) (h : parseTimestamp s = some v) :
    datetimeMin ≤ v := by
  simp only [parseTimestamp] at h
  split at h
  · split at h
    · split at h
      · rename_i hvalid
        simp only [Bool.and_eq_true, decide_eq_true_eq] at hvalid
        obtain ⟨⟨⟨⟨⟨⟨⟨hy, hmo⟩, _⟩, hd⟩, _⟩, _⟩, _⟩, _⟩ := hvalid
        simp only [Option.some.injEq] at h
        subst h
        unfold datetimeMin encodeDT
        omega
      · exact absurd h (Option.noConfusion)
    · exact absurd h (Option.noConfusion)
  · exact absurd h (Option.noConfusion)

/-- The sort key of every file name is at least `datetime.min`. -/
lemma extract_timestamp_ge_min (n : String) : datetimeMin ≤ extract_timestamp n := by
  unfold extract_timestamp
  rcases he : extract_timestamp_opt n with _ | v
  · simp
  · simp only [Option.getD_some]
    simp only [extract_timestamp_opt] at he
    split at he
    · split at he
      · exact parseTimestamp_ge_min _ v he
      · exact absurd he (Option.noConfusion)
    · exact absurd he (Option.noConfusion)

/-- `find?` returns the first match: the returned element satisfies
the predicate and everything before it refutes it. -/
lemma find?_first {α : Type} (p : α → Bool) :
    ∀ (l : List α) (x : α), l.find? p = some x →
      p x = true ∧ ∃ l1 l2, l = l1 ++ x :: l2 ∧ ∀ g ∈ l1, p g = false := by
  intro l
  induction l with
  | nil => intro x h; simp at h
  | cons a t ih =>
    intro x h
    rw [List.find?_cons] at h
    rcases hp : p a with _ | _
    · rw [hp] at h
      obtain ⟨hx, l1, l2, rfl, hprev⟩ := ih x h
      refine ⟨hx, a :: l1, l2, rfl, ?_⟩
      intro g hg
      rcases hg with _ | ⟨_, hg⟩
      · exact hp
      · exact hprev g hg
    · rw [hp] at h
      simp only [Option.some.injEq] at h
      subst h
      exact ⟨hp, [], t, rfl, by simp⟩

/-- C2 (amended): the function sorts the `result-*.txt` candidates by
embedded timestamp, newest first (a stable descending sort of the
listing); a name that fails timestamp parsing is keyed with
`datetime.min`, so it never precedes a file with a strictly later
parsed timestamp — every file after it in the sorted order has key
exactly `datetime.min` — though it may precede (in listing order) a
file whose name parses to `datetime.min` itself; the returned file is
the first in this order whose content contains both one-decimal
fingerprint lines, and `none` is returned iff no candidate's content
matches. -/
theorem c2_find_resumable (listing : List ResultFile) (psize pdur : ℚ) :
    (sortedCandidates listing).Perm (listing.filter is_result_file) ∧
    List.Sorted newerEq (sortedCandidates listing) ∧
    (∀ l1 l2 l3 f g, sortedCandidates listing = l1 ++ f :: (l2 ++ g :: l3) →
      extract_timestamp_opt f.name = none → extract_timestamp g.name = datetimeMin) ∧
    (check_existing_transcription listing psize pdur = none ↔
      ∀ f ∈ listing.filter is_result_file, fingerprint_match psize pdur f = false) ∧
    (∀ f, check_existing_transcription listing psize pdur = some f →
      fingerprint_match psize pdur f = true ∧
      ∃ l1 l2, sortedCandidates listing = l1 ++ f :: l2 ∧
        ∀ g ∈ l1, fingerprint_match psize pdur g = false) := by
  have hperm : (sortedCandidates listing).Perm (listing.filter is_result_file) :=
    List.perm_insertionSort newerEq _
  have hsorted : List.Sorted newerEq (sortedCandidates listing) :=
    List.sorted_insertionSort newerEq _
  refine ⟨hperm, hsorted, ?_, ?_, ?_⟩
  · intro l1 l2 l3 f g hsplit hf
    have hp : newerEq f g := by
      rw [hsplit] at hsorted
      have h1 := (List.pairwise_append.mp hsorted).2.1
      exact (List.pairwise_cons.mp h1).1 g (by simp)
    have hkf : extract_timestamp f.name = datetimeMin := by
      unfold extract_timestamp
      rw [hf]
      rfl
    have hkg : datetimeMin ≤ extract_timestamp g.name := extract_timestamp_ge_min g.name
    unfold newerEq at hp
    rw [hkf] at hp
    omega
  · unfold check_existing_transcription
    rw [List.find?_eq_none]
    constructor
    · intro h f hf
      have := h f (hperm.mem_iff.mpr hf)
      simpa using this
    · intro h f hf
      have := h f (hperm.mem_iff.mp hf)
      simp [this]
  · intro f hf
    obtain ⟨hmatch, l1, l2, hsplit, hprev⟩ :=
      find?_first (fingerprint_match psize pdur) (sortedCandidates listing) f hf
    exact ⟨hmatch, l1, l2, hsplit, hprev⟩

/-- A matching candidate for the C2 witness. -/
def c2w : ResultFile :=
  ⟨"result-source-20250903_220356.txt", "檔案大小: 12.0 MB\n音訊長度: 3.0 分鐘"⟩

lemma fmt1_12 : fmt1 12 = "12.0" := by
  unfold fmt1
  rw [show (10 * (12 : ℚ)) = 120 by norm_num]
  rw [show round (120 : ℚ) = 120 by norm_num [round_eq, Int.floor_eq_iff]]
  rfl

lemma fmt1_3 : fmt1 3 = "3.0" := by
  unfold fmt1
  rw [show (10 * (3 : ℚ)) = 30 by norm_num]
  rw [show round (30 : ℚ) = 30 by norm_num [round_eq, Int.floor_eq_iff]]
  rfl

lemma c2w_match : fingerprint_match 12 3 c2w = true := by
  unfold fingerprint_match size_line duration_line
  rw [fmt1_12, fmt1_3]
  decide

lemma c2w_check : check_existing_transcription [c2w] 12 3 = some c2w := by
  unfold check_existing_transcription
  rw [show sortedCandidates [c2w] = [c2w] by decide, List.find?_cons]
  simp [c2w_match]

/-- Witness for C2's amended statement: the unparsable name keys every
later file at `datetime.min`, and a single matching candidate is
found first with nothing rejected before it. -/
theorem c2_find_witness :
    extract_timestamp ceMin.name = datetimeMin ∧
    fingerprint_match 12 3 c2w = true ∧
    (∃ l1 l2, sortedCandidates [c2w] = l1 ++ c2w :: l2 ∧
      ∀ g ∈ l1, fingerprint_match 12 3 g = false) := by
  refine ⟨?_, ?_, ?_⟩
  · exact (c2_find_resumable [ceFail, ceMin] 12 3).2.2.1 [] [] [] ceFail ceMin
      (by decide) (by decide)
  · exact ((c2_find_resumable [c2w] 12 3).2.2.2.2 c2w c2w_check).1
  · exact ((c2_find_resumable [c2w] 12 3).2.2.2.2 c2w c2w_check).2

end Transcribe
